import Mathlib

/-!
Shallow embedding of `misc-utils/lsfd.c` (lsfd(1), list file descriptors).

The embedding models the column registry and its name lookup, the
file-kind classification and dispatch chain, the per-process enrichment
(`fill_proc` with its subroutines `collect_outofbox_files`,
`collect_fd_files`, `collect_fd_file`, `collect_outofbox_file`,
`collect_file`), and the worker-pool claim protocol of `fill_procs` /
`run_collectors`.  Filesystem and libc interactions (`fstatat`,
`readlinkat`, `opendir`, `proc_get_command_name`) are oracles packaged in
an environment record; C strings are `List Char` (NUL-free), and the
`strtol` prefix parse is embedded explicitly.

Code of the repository that is not under `src/` (the `enum association`
and `COL_*` constants of `lsfd.h`, the file-class vtables of
`lsfd-file.c`/`lsfd-cdev.c`/`lsfd-bdev.c`, and `string_add_to_idarray`
of `lib/strutils.c`) is modelled from the specification; each such
definition carries a doc comment saying so.
-/

namespace Lsfd

/-! ## Column registry (lsfd.c:77-117) -/

/-- The upper-to-lower mapping of the 26 basic latin letters. -/
def asciiPairs : List (Char × Char) :=
  [('A', 'a'), ('B', 'b'), ('C', 'c'), ('D', 'd'), ('E', 'e'), ('F', 'f'),
   ('G', 'g'), ('H', 'h'), ('I', 'i'), ('J', 'j'), ('K', 'k'), ('L', 'l'),
   ('M', 'm'), ('N', 'n'), ('O', 'o'), ('P', 'p'), ('Q', 'q'), ('R', 'r'),
   ('S', 's'), ('T', 't'), ('U', 'u'), ('V', 'v'), ('W', 'w'), ('X', 'x'),
   ('Y', 'y'), ('Z', 'z')]

/-- ASCII `tolower`, as `strncasecmp` applies it in the C locale: each
upper-case letter maps to its lower-case letter and every other
character maps to itself. -/
def cLower (c : Char) : Char :=
  ((asciiPairs.find? (fun p => p.1 == c)).map Prod.snd).getD c

/-- The `infos[]` column-description names, in index order
(lsfd.c:77-91).  The `COL_*` indices of `lsfd.h` (absent from `src/`)
are taken to be 0..9 in this order; the designated initializers of
`infos[]` tie each index to its name. -/
def infos : List (List Char) :=
  ["ASSOC".data, "COMMAND".data, "DEVICE".data, "FD".data, "INODE".data,
   "NAME".data, "PID".data, "TYPE".data, "UID".data, "USER".data]

def COL_ASSOC : Nat := 0
def COL_COMMAND : Nat := 1
def COL_DEVICE : Nat := 2
def COL_FD : Nat := 3
def COL_INODE : Nat := 4
def COL_NAME : Nat := 5
def COL_PID : Nat := 6
def COL_TYPE : Nat := 7
def COL_UID : Nat := 8
def COL_USER : Nat := 9

/-- Read a C string (NUL-free `List Char` plus implicit terminator)
at index `i`: the terminating NUL is returned past the end. -/
def cAt (s : List Char) (i : Nat) : Char :=
  (s.drop i).headD '\x00'

/-- Whether `strncasecmp(s, t, n) == 0` for the C strings `s`, `t`
(both NUL-free; the virtual terminator is compared like any char). -/
def cstrncasecmpIsZero : List Char → List Char → Nat → Bool
  | _, _, 0 => true
  | s, t, n + 1 =>
    let c1 := cLower (s.headD '\x00')
    let c2 := cLower (t.headD '\x00')
    if c1 = c2 then
      if c1 = '\x00' then true else cstrncasecmpIsZero s.tail t.tail n
    else false

/-- The scan loop of `column_name_to_id` (lsfd.c:108-113), walking the
remaining `infos` entries with `i` the index of the first one. -/
def columnLookup (name : List Char) (namesz : Nat) : List (List Char) → Nat → Int
  | [], _ => -1
  | cn :: rest, i =>
    if cstrncasecmpIsZero name cn namesz && (cAt cn namesz == '\x00') then (i : Int)
    else columnLookup name namesz rest (i + 1)

/-- Embedding of `column_name_to_id(name, namesz)` (lsfd.c:104-117): index of the
column whose name matches case-insensitively in full, `-1` otherwise. -/
def column_name_to_id (name : List Char) (namesz : Nat) : Int :=
  columnLookup name namesz infos 0

/-- The default column set installed at lsfd.c:568-577 (`ncolumns` is
still 0 when that block runs, so it always fires). -/
def defaultColumns : List Nat :=
  [COL_COMMAND, COL_PID, COL_USER, COL_ASSOC, COL_TYPE, COL_DEVICE,
   COL_INODE, COL_NAME]

def EXIT_FAILURE : Nat := 1

/-- Modelled from the spec: `string_add_to_idarray` (lib/strutils.c,
absent from `src/`) resolves each name of the comma-separated `-o`
list via `column_name_to_id` and appends the id to the column array,
failing when any name is unknown.  `outnames` is the already-split
list of names. -/
def string_add_to_idarray (outnames : List (List Char)) (cols : List Nat) :
    Option (List Nat) :=
  match outnames with
  | [] => some cols
  | nm :: rest =>
    let id := column_name_to_id nm nm.length
    if id < 0 then none else string_add_to_idarray rest (cols ++ [id.toNat])

/-- Column setup of `main` (lsfd.c:568-581): the defaults are installed
unconditionally (`ncolumns` is 0 there), then a `-o` argument appends
its ids; an unknown name makes `main` return `EXIT_FAILURE`. -/
def setupColumns (outarg : Option (List (List Char))) : Except Nat (List Nat) :=
  let cols := defaultColumns
  match outarg with
  | none => Except.ok cols
  | some names =>
    match string_add_to_idarray names cols with
    | none => Except.error EXIT_FAILURE
    | some cols2 => Except.ok cols2

/-- The header names handed to `scols_table_new_column` for a selected
id list (lsfd.c:599-603, `get_column_info(i)->name`). -/
def columnHeaders (cols : List Nat) : List (List Char) :=
  cols.map (fun i => infos.getD i [])

/-! ## Classification and File records (lsfd.c:229-241) -/

/-- File kinds of the classification registry: the three concrete
classes and the generic fallback class. -/
inductive Kind
  | regular
  | cdev
  | bdev
  | generic
deriving DecidableEq

def S_IFMT : Nat := 0xF000
def S_IFREG : Nat := 0x8000
def S_IFCHR : Nat := 0x2000
def S_IFBLK : Nat := 0x6000

/-- The stat fields the program stores (device, inode, mode). -/
structure CStat where
  st_mode : Nat
  st_dev : Nat
  st_ino : Nat
deriving DecidableEq

/-- A `struct file`: kind tag (the `class` pointer), the resolved link
target stored in the file name, the association value, and the stat
snapshot. -/
structure File where
  kind : Kind
  name : List Char
  assoc : Int
  stat : CStat
deriving DecidableEq

/-- Modelled from the spec: `make_file` (lsfd-file.c, absent from
`src/`) constructs a File of the generic kind, storing the raw stat
fields, name and association. -/
def make_file (sb : CStat) (name : List Char) (assoc : Int) : File :=
  ⟨Kind.generic, name, assoc, sb⟩

/-- Modelled from the spec: `make_regular_file` tags the File with the
regular kind. -/
def make_regular_file (sb : CStat) (name : List Char) (assoc : Int) : File :=
  ⟨Kind.regular, name, assoc, sb⟩

/-- Modelled from the spec: `make_cdev_file` tags the File with the
character-device kind. -/
def make_cdev_file (sb : CStat) (name : List Char) (assoc : Int) : File :=
  ⟨Kind.cdev, name, assoc, sb⟩

/-- Modelled from the spec: `make_bdev_file` tags the File with the
block-device kind. -/
def make_bdev_file (sb : CStat) (name : List Char) (assoc : Int) : File :=
  ⟨Kind.bdev, name, assoc, sb⟩

/-- Embedding of `collect_file` (lsfd.c:229-241): dispatch on the file-type bits of
`st_mode`. -/
def collect_file (sb : CStat) (name : List Char) (assoc : Int) : File :=
  if sb.st_mode &&& S_IFMT = S_IFREG then make_regular_file sb name assoc
  else if sb.st_mode &&& S_IFMT = S_IFCHR then make_cdev_file sb name assoc
  else if sb.st_mode &&& S_IFMT = S_IFBLK then make_bdev_file sb name assoc
  else make_file sb name assoc

/-! ## strtol (as used at lsfd.c:252-254) -/

def isCSpace (c : Char) : Bool :=
  c = ' ' || c = '\t' || c = '\n' || c = '\r' || c = '\x0b' || c = '\x0c'

def digitVal (c : Char) : Nat := c.toNat - '0'.toNat

def LONG_MAX : Int := 2 ^ 63 - 1
def LONG_MIN : Int := -(2 ^ 63)

def clampLong (v : Int) : Int :=
  if v > LONG_MAX then LONG_MAX else if v < LONG_MIN then LONG_MIN else v

/-- Embedding of `strtol(s, &endptr, 10)`: the parsed long (clamped on overflow) and
the offset of `endptr` from `s`; the offset is 0 exactly when no
conversion was performed (then the value is 0 too). -/
def strtol (s : List Char) : Int × Nat :=
  let ws := s.takeWhile isCSpace
  let rest := s.drop ws.length
  let sgnNeg : Bool := rest.headD 'x' == '-'
  let hasSign : Bool := rest.headD 'x' == '-' || rest.headD 'x' == '+'
  let rest2 := if hasSign then rest.tail else rest
  let ds := rest2.takeWhile Char.isDigit
  if ds.isEmpty then (0, 0)
  else
    (clampLong ((if sgnNeg then (-1 : Int) else 1) *
        (ds.foldl (fun a c => a * 10 + digitVal c) 0 : Nat)),
     ws.length + (if hasSign then 1 else 0) + ds.length)

/-- Conversion of a C `long` value to `int` (the cast at lsfd.c:263):
two's-complement wrap into 32 bits. -/
def toCInt (v : Int) : Int := (v + 2 ^ 31) % 2 ^ 32 - 2 ^ 31

/-! ## Associations (lsfd.h, modelled) and enrichment (lsfd.c:243-391) -/

/-- Modelled from the spec: `enum association` of `lsfd.h` (absent from
`src/`): distinct positive codes for the three classical associations
and the ten namespace kinds; a File stores the code negated
(lsfd.c:333, `assocs[i] * -1`). -/
inductive Assoc
  | cwd
  | exe
  | root
  | nsCgroup
  | nsIpc
  | nsMnt
  | nsNet
  | nsPid
  | nsPid4c
  | nsTime
  | nsTime4c
  | nsUser
  | nsUts
deriving DecidableEq

/-- Modelled from the spec: the numeric value of each `enum association`
constant; only distinctness and positivity matter downstream. -/
def assocVal : Assoc → Nat
  | .cwd => 1
  | .exe => 2
  | .root => 3
  | .nsCgroup => 4
  | .nsIpc => 5
  | .nsMnt => 6
  | .nsNet => 7
  | .nsPid => 8
  | .nsPid4c => 9
  | .nsTime => 10
  | .nsTime4c => 11
  | .nsUser => 12
  | .nsUts => 13

/-- The `assoc_names` entry for each association (lsfd.c:352-356 and
374-385). -/
def assocName : Assoc → List Char
  | .cwd => "cwd".data
  | .exe => "exe".data
  | .root => "root".data
  | .nsCgroup => "cgroup".data
  | .nsIpc => "ipc".data
  | .nsMnt => "mnt".data
  | .nsNet => "net".data
  | .nsPid => "pid".data
  | .nsPid4c => "pid_for_children".data
  | .nsTime => "time".data
  | .nsTime4c => "time_for_children".data
  | .nsUser => "user".data
  | .nsUts => "uts".data

def classicalTemplate : List Char := "/proc/%d".data
def nsTemplate : List Char := "/proc/%d/ns".data
def fdTemplate : List Char := "/proc/%d/fd/".data

/-- The `classical_assocs` array (lsfd.c:351). -/
def classicalAssocs : List Assoc := [.cwd, .exe, .root]

/-- The `namespace_assocs` array (lsfd.c:362-373). -/
def namespaceAssocs : List Assoc :=
  [.nsCgroup, .nsIpc, .nsMnt, .nsNet, .nsPid, .nsPid4c, .nsTime,
   .nsTime4c, .nsUser, .nsUts]

def PATH_MAX : Nat := 4096

/-- The filesystem/libc oracle for one process: the command-name
lookup, directory-open success per path template, and the
`fstatat`/`readlinkat` results keyed by (template, entry name).
`fdEntries` is the listing of `/proc/<pid>/fd/`, `none` when `opendirf`
or `dirfd` fails.  `readlinkAt` yields the full link target; the code
truncates it into its `PATH_MAX` buffer. -/
structure ProcEnv where
  commandName : Option (List Char)
  dirOk : List Char → Bool
  statAt : List Char → List Char → Option CStat
  readlinkAt : List Char → List Char → Option (List Char)
  fdEntries : Option (List (List Char))

/-- Embedding of `collect_outofbox_file` (lsfd.c:296-310): stat, then read the link
target into a zeroed `PATH_MAX` buffer limited to `PATH_MAX - 1`
bytes; `none` when either call fails. -/
def collect_outofbox_file (env : ProcEnv) (tmpl : List Char)
    (name : List Char) (assocCode : Int) : Option File :=
  match env.statAt tmpl name with
  | none => none
  | some sb =>
    match env.readlinkAt tmpl name with
    | none => none
    | some target => some (collect_file sb (target.take (PATH_MAX - 1)) assocCode)

/-- Embedding of `collect_outofbox_files` (lsfd.c:312-339): nothing when the
directory cannot be opened; otherwise one attempt per association,
skipping failures. -/
def collect_outofbox_files (env : ProcEnv) (tmpl : List Char)
    (assocs : List Assoc) : List File :=
  if env.dirOk tmpl then
    assocs.filterMap
      (fun a => collect_outofbox_file env tmpl (assocName a) (-(assocVal a : Int)))
  else []

/-- Embedding of `collect_fd_file` (lsfd.c:243-264): skip the entry only when
`strtol` converted nothing and returned 0; then stat and read the link
(truncated to `PATH_MAX - 1` bytes), skipping the entry when either
fails; the association is the parsed value cast to `int`. -/
def collect_fd_file (env : ProcEnv) (name : List Char) : Option File :=
  let r := strtol name
  if r.1 = 0 ∧ r.2 = 0 then none
  else
    match env.statAt fdTemplate name with
    | none => none
    | some sb =>
      match env.readlinkAt fdTemplate name with
      | none => none
      | some target =>
        some (collect_file sb (target.take (PATH_MAX - 1)) (toCInt r.1))

/-- Modelled from the spec: `xreaddir` (include/c.h, absent from
`src/`) skips the `.` and `..` entries. -/
def xreaddirKeeps (name : List Char) : Bool :=
  !(name == ".".data) && !(name == "..".data)

/-- Embedding of `collect_fd_files` (lsfd.c:272-294): nothing when the fd directory
cannot be opened; otherwise one `collect_fd_file` per entry, skipping
failures. -/
def collect_fd_files (env : ProcEnv) : List File :=
  match env.fdEntries with
  | none => []
  | some entries => (entries.filter xreaddirKeeps).filterMap (collect_fd_file env)

/-- A `struct proc` after enrichment. -/
structure Proc where
  pid : Int
  command : List Char
  files : List File
deriving DecidableEq

/-- Embedding of `fill_proc` (lsfd.c:341-391): fetching the command name fails ⇒
`err(EXIT_FAILURE)` (the `.error` case); otherwise the file list is the
classical associations, then the namespace handles, then the descriptor
scan. -/
def fill_proc (pid : Int) (env : ProcEnv) : Except Unit Proc :=
  match env.commandName with
  | none => Except.error ()
  | some cmd =>
    Except.ok ⟨pid, cmd,
      collect_outofbox_files env classicalTemplate classicalAssocs
        ++ collect_outofbox_files env nsTemplate namespaceAssocs
        ++ collect_fd_files env⟩

/-! ## Work scheduler (lsfd.c:188-214, 394-436) -/

/-- The shared scheduler state: `cursor` is the index `current_proc`
points at (with `procs.length` standing for the list-head sentinel),
and `claims` records, in claim order, which worker claimed which
position. -/
structure Sched where
  cursor : Nat
  claims : List (Nat × Nat)
deriving DecidableEq

/-- One execution of the critical section at lsfd.c:413-433 by worker
`w`: claim the cursor position and advance, or — at the sentinel —
change nothing (the worker then breaks out of its loop). -/
def claimStep (n : Nat) (st : Sched) (w : Nat) : Sched :=
  if st.cursor < n then ⟨st.cursor + 1, st.claims ++ [(w, st.cursor)]⟩ else st

/-- A run of the claim protocol over a list of `n` processes:
`run_collectors` (lsfd.c:202) sets the cursor to the list head before
any worker claims; `sched` is the interleaving of the workers' claim
sections (each entry one critical section of that worker). -/
def runSched (n : Nat) (sched : List Nat) : Sched :=
  sched.foldl (claimStep n) ⟨0, []⟩

/-! ## Column dispatcher (lsfd.c:438-453) -/

/-- Modelled from the spec: the `super` pointer of each file class
(lsfd.h / lsfd-file.c, absent from `src/`): every concrete kind falls
back to the generic kind, which has no fallback. -/
def fcSuper : Kind → Option Kind
  | .regular => some .generic
  | .cdev => some .generic
  | .bdev => some .generic
  | .generic => none

/-- Length of the fallback chain below a kind; `fcSuper` decreases it. -/
def kindRank : Kind → Nat
  | .generic => 0
  | _ => 1

/-- Modelled from the spec: the per-class `fill_column` hooks
(lsfd-file.c / lsfd-cdev.c / lsfd-bdev.c, absent from `src/`): a
concrete kind overrides the TYPE cell and declines other columns; the
generic kind supplies a (possibly empty placeholder) value for every
registry column. -/
def classFillColumn : Kind → Nat → Option (List Char)
  | .regular, c => if c = COL_TYPE then some ("REG".data) else none
  | .cdev, c => if c = COL_TYPE then some ("CHR".data) else none
  | .bdev, c => if c = COL_TYPE then some ("BLK".data) else none
  | .generic, c => if c < infos.length then some [] else none

/-- Embedding of `fill_column` (lsfd.c:438-453): walk the kind chain from the
concrete class, stopping at the first class whose hook fills the cell;
`none` means the loop ran off the chain with the cell unfilled. -/
def fill_column (k : Kind) (columnId : Nat) : Option (List Char) :=
  match classFillColumn k columnId with
  | some v => some v
  | none =>
    match h : fcSuper k with
    | none => none
    | some s => fill_column s columnId
termination_by kindRank k
decreasing_by
  cases k <;> simp_all [fcSuper, kindRank] <;> subst h <;> simp [kindRank]

/-! ## Whole-run pipeline (lsfd.c:521-640) -/

/-- The world a run observes: the enumerated pid list and each pid's
filesystem oracle. -/
structure World where
  procList : List Int
  procEnv : Int → ProcEnv

/-- The collection phase over a pid list; any `err` inside `fill_proc`
aborts the program with `EXIT_FAILURE`. -/
def collectList (envOf : Int → ProcEnv) : List Int → Except Nat (List Proc)
  | [] => Except.ok []
  | pid :: rest =>
    match fill_proc pid (envOf pid) with
    | .error _ => Except.error EXIT_FAILURE
    | .ok p => (collectList envOf rest).map (fun ps => p :: ps)

/-- The collection phase over all enumerated processes. -/
def collectAll (w : World) : Except Nat (List Proc) :=
  collectList w.procEnv w.procList

/-- The run skeleton of `main` (lsfd.c:568-635): column setup first
(returning `EXIT_FAILURE` on an unknown `-o` name, before any
collection), then collection, then the selected columns and rows are
handed to the render sink. -/
def lsfd_run (outarg : Option (List (List Char))) (w : World) :
    Except Nat (List Nat × List Proc) :=
  match setupColumns outarg with
  | .error e => Except.error e
  | .ok cols =>
    match collectAll w with
    | .error e => Except.error e
    | .ok ps => Except.ok (cols, ps)

/-! ## Spec-side helpers -/

/-- The spec's reading of "the entry's name parses as a non-negative
integer": the whole name is a decimal numeral (used to compare the
spec's descriptor filter with the code's `strtol` test). -/
def specParseNonNegInt (s : List Char) : Option Nat :=
  if s ≠ [] ∧ s.all Char.isDigit then
    some (s.foldl (fun a c => a * 10 + digitVal c) 0)
  else none

/-- Decimal digit character for a value below 10 (the kernel names
entries of `/proc/<pid>/fd` with canonical numerals). -/
def digitChar (n : Nat) : Char :=
  if n = 0 then '0'
  else if n = 1 then '1'
  else if n = 2 then '2'
  else if n = 3 then '3'
  else if n = 4 then '4'
  else if n = 5 then '5'
  else if n = 6 then '6'
  else if n = 7 then '7'
  else if n = 8 then '8'
  else '9'

/-- The ten decimal digit characters. -/
def digitCharsList : List Char :=
  ['0', '1', '2', '3', '4', '5', '6', '7', '8', '9']

/-- Fuel-driven digit expansion; with fuel above `n` it yields the
canonical decimal digits of `n`, most significant first. -/
def natDigitsAux : Nat → Nat → List Char
  | 0, _ => []
  | fuel + 1, n =>
    if n < 10 then [digitChar n]
    else natDigitsAux fuel (n / 10) ++ [digitChar (n % 10)]

/-- Canonical decimal digits of `n`, most significant first. -/
def natDigits (n : Nat) : List Char := natDigitsAux (n + 1) n

/-! ## Concrete fixtures used by witnesses -/

/-- Stat result of an ordinary regular file (mode 0100644). -/
def statReg : CStat := ⟨0x81A4, 8, 42⟩

/-- An oracle where every lookup succeeds. -/
def envPermissive : ProcEnv :=
  ⟨some ("init".data), fun _ => true, fun _ _ => some statReg,
   fun _ _ => some ("/x".data), some []⟩

/-- An oracle whose command-name lookup fails. -/
def envNoCmd : ProcEnv :=
  ⟨none, fun _ => true, fun _ _ => some statReg,
   fun _ _ => some ("/x".data), some []⟩

/-- An oracle whose link targets are `PATH_MAX` bytes long. -/
def envLongLink : ProcEnv :=
  ⟨some ("init".data), fun _ => true, fun _ _ => some statReg,
   fun _ _ => some (List.replicate PATH_MAX 'a'), some ["3".data]⟩

/-- An oracle with canonical descriptor entries 0 and 7. -/
def envCanonFds : ProcEnv :=
  ⟨some ("init".data), fun _ => true, fun _ _ => some statReg,
   fun _ _ => some ("/x".data), some ([0, 7].map natDigits)⟩

/-- A world with one process whose lookups all succeed. -/
def witWorld : World := ⟨[5], fun _ => envPermissive⟩

/-- A world with one process whose command name is unavailable. -/
def witWorldNoCmd : World := ⟨[5], fun _ => envNoCmd⟩

/-- A per-pid oracle family where pid 2 is broken. -/
def witEnvs : Int → ProcEnv := fun q => if q = 2 then envNoCmd else envPermissive

/-- A per-pid oracle family where every pid works. -/
def witEnvs2 : Int → ProcEnv := fun _ => envPermissive

/-! ## Basic lemmas about the embedded operations -/

lemma collect_file_name (sb : CStat) (nm : List Char) (a : Int) :
    (collect_file sb nm a).name = nm := by
  unfold collect_file make_regular_file make_cdev_file make_bdev_file make_file
  split_ifs <;> rfl

lemma collect_file_assoc (sb : CStat) (nm : List Char) (a : Int) :
    (collect_file sb nm a).assoc = a := by
  unfold collect_file make_regular_file make_cdev_file make_bdev_file make_file
  split_ifs <;> rfl

lemma collect_outofbox_file_some {env : ProcEnv} {tmpl nm : List Char} {a : Int}
    {f : File} (h : collect_outofbox_file env tmpl nm a = some f) :
    ∃ sb target, env.statAt tmpl nm = some sb
      ∧ env.readlinkAt tmpl nm = some target
      ∧ f = collect_file sb (target.take (PATH_MAX - 1)) a := by
  unfold collect_outofbox_file at h
  cases hs : env.statAt tmpl nm with
  | none => rw [hs] at h; exact absurd h (by simp)
  | some sb =>
    rw [hs] at h
    cases hr : env.readlinkAt tmpl nm with
    | none => rw [hr] at h; exact absurd h (by simp)
    | some target =>
      rw [hr] at h
      exact ⟨sb, target, rfl, rfl, (Option.some_inj.mp h).symm⟩

lemma collect_fd_file_some {env : ProcEnv} {nm : List Char} {f : File}
    (h : collect_fd_file env nm = some f) :
    ¬((strtol nm).1 = 0 ∧ (strtol nm).2 = 0)
    ∧ ∃ sb target, env.statAt fdTemplate nm = some sb
      ∧ env.readlinkAt fdTemplate nm = some target
      ∧ f = collect_file sb (target.take (PATH_MAX - 1)) (toCInt (strtol nm).1) := by
  unfold collect_fd_file at h
  by_cases hp : (strtol nm).1 = 0 ∧ (strtol nm).2 = 0
  · simp [hp] at h
  · rw [if_neg hp] at h
    refine ⟨hp, ?_⟩
    cases hs : env.statAt fdTemplate nm with
    | none => rw [hs] at h; exact absurd h (by simp)
    | some sb =>
      rw [hs] at h
      cases hr : env.readlinkAt fdTemplate nm with
      | none => rw [hr] at h; exact absurd h (by simp)
      | some target =>
        rw [hr] at h
        exact ⟨sb, target, rfl, rfl, (Option.some_inj.mp h).symm⟩

lemma fill_proc_ok {env : ProcEnv} {pid : Int} {cmd : List Char}
    (hc : env.commandName = some cmd) :
    fill_proc pid env = Except.ok ⟨pid, cmd,
      collect_outofbox_files env classicalTemplate classicalAssocs
        ++ collect_outofbox_files env nsTemplate namespaceAssocs
        ++ collect_fd_files env⟩ := by
  unfold fill_proc
  rw [hc]

/-! ## Claim theorems -/

/-- C8: `collect_file` selects the regular kind exactly for `S_IFREG`
file-type bits, the character-device kind exactly for `S_IFCHR`, the
block-device kind exactly for `S_IFBLK`, and the generic kind exactly
for every other file type; being a total function, it never leaves a
File without a kind. -/
theorem lsfd_classification_dispatch (sb : CStat) (nm : List Char) (a : Int) :
    ((collect_file sb nm a).kind = Kind.regular ↔ sb.st_mode &&& S_IFMT = S_IFREG)
    ∧ ((collect_file sb nm a).kind = Kind.cdev ↔ sb.st_mode &&& S_IFMT = S_IFCHR)
    ∧ ((collect_file sb nm a).kind = Kind.bdev ↔ sb.st_mode &&& S_IFMT = S_IFBLK)
    ∧ ((collect_file sb nm a).kind = Kind.generic ↔
        (sb.st_mode &&& S_IFMT ≠ S_IFREG ∧ sb.st_mode &&& S_IFMT ≠ S_IFCHR
          ∧ sb.st_mode &&& S_IFMT ≠ S_IFBLK)) := by
  unfold collect_file make_regular_file make_cdev_file make_bdev_file make_file
  split_ifs <;> simp_all <;> decide

lemma fill_column_generic_isSome (c : Nat) (h : c < infos.length) :
    (fill_column Kind.generic c).isSome := by
  unfold fill_column
  simp [classFillColumn, h]

/-- C3: for every kind and every registry column identifier, the column
dispatcher `fill_column` walks the kind chain and produces a cell
value: the generic kind answers every registry column, so dispatch
never runs off the chain. -/
theorem lsfd_fill_column_total (k : Kind) (c : Nat) (h : c < infos.length) :
    (fill_column k c).isSome := by
  have hg := fill_column_generic_isSome c h
  cases k with
  | generic => exact hg
  | regular =>
    unfold fill_column
    by_cases hc : c = COL_TYPE <;> simp [classFillColumn, hc, fcSuper, hg]
  | cdev =>
    unfold fill_column
    by_cases hc : c = COL_TYPE <;> simp [classFillColumn, hc, fcSuper, hg]
  | bdev =>
    unfold fill_column
    by_cases hc : c = COL_TYPE <;> simp [classFillColumn, hc, fcSuper, hg]

/-- Witness for C3 at the concrete pair (cdev, NAME). -/
theorem lsfd_fill_column_total_witness :
    COL_NAME < infos.length ∧ (fill_column Kind.cdev COL_NAME).isSome :=
  ⟨by decide, lsfd_fill_column_total Kind.cdev COL_NAME (by decide)⟩

lemma collectList_error {envOf : Int → ProcEnv} :
    ∀ (l : List Int) (pid : Int), pid ∈ l →
    fill_proc pid (envOf pid) = Except.error () →
    collectList envOf l = Except.error EXIT_FAILURE := by
  intro l
  induction l with
  | nil => intro pid hmem; exact absurd hmem (by simp)
  | cons a rest ih =>
    intro pid hmem hfail
    rcases List.mem_cons.mp hmem with heq | htail
    · subst heq
      unfold collectList
      rw [hfail]
    · unfold collectList
      cases ha : fill_proc a (envOf a) with
      | error e => rfl
      | ok p => rw [ih pid htail hfail]; rfl

/-- C9: when the command name of a process cannot be fetched,
`fill_proc` raises the fatal error path (`err(EXIT_FAILURE)`), so the
whole run aborts with a non-zero exit; no per-entity skip applies. -/
theorem lsfd_command_name_fatal (w : World) (outarg : Option (List (List Char)))
    (cols : List Nat) (pid : Int)
    (hmem : pid ∈ w.procList)
    (hcmd : (w.procEnv pid).commandName = none)
    (hsetup : setupColumns outarg = Except.ok cols) :
    fill_proc pid (w.procEnv pid) = Except.error ()
    ∧ lsfd_run outarg w = Except.error EXIT_FAILURE := by
  have hf : fill_proc pid (w.procEnv pid) = Except.error () := by
    unfold fill_proc
    rw [hcmd]
  refine ⟨hf, ?_⟩
  unfold lsfd_run
  rw [hsetup]
  unfold collectAll
  rw [collectList_error w.procList pid hmem hf]

/-- Witness for C9 with a concrete world whose single process has no
command name. -/
theorem lsfd_command_name_fatal_witness :
    (5 : Int) ∈ witWorldNoCmd.procList
    ∧ (witWorldNoCmd.procEnv 5).commandName = none
    ∧ setupColumns none = Except.ok defaultColumns
    ∧ (fill_proc 5 (witWorldNoCmd.procEnv 5) = Except.error ()
        ∧ lsfd_run none witWorldNoCmd = Except.error EXIT_FAILURE) :=
  ⟨by decide, rfl, rfl,
   lsfd_command_name_fatal witWorldNoCmd none defaultColumns 5 (by decide) rfl rfl⟩

/-- C2: per-process enrichment never takes a fatal path for missing or
disappearing entities: whenever the command name is available,
`fill_proc` succeeds no matter how the stat/readlink/opendir oracles
fail; when the whole descriptor-table directory cannot be opened the
descriptor set is simply omitted while the association files remain;
and the result for one process is unaffected by the oracles of any
other process. -/
theorem lsfd_enrichment_soft_failures (envs envs2 : Int → ProcEnv)
    (p p0 : Int) (cmd : List Char)
    (hc : (envs p).commandName = some cmd)
    (hagree : ∀ q, q ≠ p0 → envs q = envs2 q)
    (hne : p ≠ p0) :
    (∃ pr, fill_proc p (envs p) = Except.ok pr
      ∧ ((envs p).fdEntries = none →
          pr.files = collect_outofbox_files (envs p) classicalTemplate classicalAssocs
            ++ collect_outofbox_files (envs p) nsTemplate namespaceAssocs))
    ∧ fill_proc p (envs p) = fill_proc p (envs2 p) := by
  constructor
  · refine ⟨_, fill_proc_ok hc, ?_⟩
    intro hfd
    simp [collect_fd_files, hfd]
  · rw [hagree p hne]

/-- Witness for C2: pid 1 is enriched identically whether or not pid 2's
oracle is broken, and with every lookup failing the run still succeeds. -/
theorem lsfd_enrichment_soft_failures_witness :
    (witEnvs 1).commandName = some ("init".data)
    ∧ (∀ q, q ≠ (2 : Int) → witEnvs q = witEnvs2 q)
    ∧ (1 : Int) ≠ 2
    ∧ ((∃ pr, fill_proc 1 (witEnvs 1) = Except.ok pr
        ∧ ((witEnvs 1).fdEntries = none →
            pr.files = collect_outofbox_files (witEnvs 1) classicalTemplate classicalAssocs
              ++ collect_outofbox_files (witEnvs 1) nsTemplate namespaceAssocs))
      ∧ fill_proc 1 (witEnvs 1) = fill_proc 1 (witEnvs2 1)) :=
  ⟨rfl, fun q hq => by simp [witEnvs, witEnvs2, hq], by decide,
   lsfd_enrichment_soft_failures witEnvs witEnvs2 1 2 ("init".data) rfl
     (fun q hq => by simp [witEnvs, witEnvs2, hq]) (by decide)⟩

/-- C6 (code bug): `main` installs the default columns unconditionally
(`ncolumns` is still 0 at lsfd.c:568), so a fully recognized `-o PID`
argument renders the eight default columns followed by PID instead of
exactly PID. -/
theorem lsfd_output_option_appends_defaults :
    setupColumns (some ["PID".data]) =
      Except.ok [COL_COMMAND, COL_PID, COL_USER, COL_ASSOC, COL_TYPE,
        COL_DEVICE, COL_INODE, COL_NAME, COL_PID]
    ∧ columnHeaders [COL_COMMAND, COL_PID, COL_USER, COL_ASSOC, COL_TYPE,
        COL_DEVICE, COL_INODE, COL_NAME, COL_PID] ≠ ["PID".data] :=
  ⟨rfl, by decide⟩

lemma outofbox_file_name_len {env : ProcEnv} {tmpl : List Char}
    {assocs : List Assoc} {f : File}
    (h : f ∈ collect_outofbox_files env tmpl assocs) :
    f.name.length ≤ PATH_MAX - 1 := by
  unfold collect_outofbox_files at h
  by_cases hd : env.dirOk tmpl
  · rw [if_pos hd] at h
    obtain ⟨a, _, ha⟩ := List.mem_filterMap.mp h
    obtain ⟨sb, t, _, _, hf⟩ := collect_outofbox_file_some ha
    rw [hf, collect_file_name, List.length_take]
    exact Nat.min_le_left _ _
  · rw [if_neg hd] at h
    exact absurd h (by simp)

lemma fd_file_name_len {env : ProcEnv} {nm : List Char} {f : File}
    (h : collect_fd_file env nm = some f) : f.name.length ≤ PATH_MAX - 1 := by
  obtain ⟨-, sb, t, -, -, hf⟩ := collect_fd_file_some h
  rw [hf, collect_file_name, List.length_take]
  exact Nat.min_le_left _ _

lemma mem_fd_files_name_len {env : ProcEnv} {f : File}
    (h : f ∈ collect_fd_files env) : f.name.length ≤ PATH_MAX - 1 := by
  unfold collect_fd_files at h
  cases he : env.fdEntries with
  | none => rw [he] at h; exact absurd h (by simp)
  | some entries =>
    rw [he] at h
    obtain ⟨nm, _, hnm⟩ := List.mem_filterMap.mp h
    exact fd_file_name_len hnm

/-- C10: every stored link target is truncated to its first
`PATH_MAX - 1` bytes (the buffer is zeroed and `readlinkat` is limited
to `PATH_MAX - 1`, keeping it NUL-terminated), an over-long target does
not make the entry fail, and every File built by enrichment obeys the
bound. -/
theorem lsfd_link_target_truncation (env : ProcEnv) (nm target : List Char)
    (sb : CStat)
    (hs : env.statAt fdTemplate nm = some sb)
    (hr : env.readlinkAt fdTemplate nm = some target)
    (hp : ¬((strtol nm).1 = 0 ∧ (strtol nm).2 = 0)) :
    (∃ f, collect_fd_file env nm = some f
      ∧ f.name = target.take (PATH_MAX - 1) ∧ f.name.length ≤ PATH_MAX - 1)
    ∧ (∀ tmpl nm2 a f2, collect_outofbox_file env tmpl nm2 a = some f2 →
        f2.name.length ≤ PATH_MAX - 1)
    ∧ (∀ pid pr, fill_proc pid env = Except.ok pr →
        ∀ f ∈ pr.files, f.name.length ≤ PATH_MAX - 1) := by
  refine ⟨?_, ?_, ?_⟩
  · refine ⟨collect_file sb (target.take (PATH_MAX - 1)) (toCInt (strtol nm).1),
      ?_, collect_file_name _ _ _, ?_⟩
    · simp [collect_fd_file, hp, hs, hr]
    · rw [collect_file_name, List.length_take]
      exact Nat.min_le_left _ _
  · intro tmpl nm2 a f2 h2
    obtain ⟨sb2, t2, -, -, hf2⟩ := collect_outofbox_file_some h2
    rw [hf2, collect_file_name, List.length_take]
    exact Nat.min_le_left _ _
  · intro pid pr hpr f hf
    cases hc : env.commandName with
    | none =>
      unfold fill_proc at hpr
      rw [hc] at hpr
      exact absurd hpr (by simp)
    | some cmd =>
      rw [fill_proc_ok hc] at hpr
      have hfiles := (Except.ok.inj hpr).symm ▸ hf
      rcases List.mem_append.mp hfiles with h12 | h3
      · rcases List.mem_append.mp h12 with h1 | h2
        · exact outofbox_file_name_len h1
        · exact outofbox_file_name_len h2
      · exact mem_fd_files_name_len h3

/-- Witness for C10 with a link target of exactly `PATH_MAX` bytes. -/
theorem lsfd_link_target_truncation_witness :
    envLongLink.statAt fdTemplate ("3".data) = some statReg
    ∧ envLongLink.readlinkAt fdTemplate ("3".data) = some (List.replicate PATH_MAX 'a')
    ∧ ¬((strtol ("3".data)).1 = 0 ∧ (strtol ("3".data)).2 = 0)
    ∧ ((∃ f, collect_fd_file envLongLink ("3".data) = some f
        ∧ f.name = (List.replicate PATH_MAX 'a').take (PATH_MAX - 1)
        ∧ f.name.length ≤ PATH_MAX - 1)
      ∧ (∀ tmpl nm2 a f2, collect_outofbox_file envLongLink tmpl nm2 a = some f2 →
          f2.name.length ≤ PATH_MAX - 1)
      ∧ (∀ pid pr, fill_proc pid envLongLink = Except.ok pr →
          ∀ f ∈ pr.files, f.name.length ≤ PATH_MAX - 1)) :=
  ⟨rfl, rfl, by decide,
   lsfd_link_target_truncation envLongLink ("3".data) (List.replicate PATH_MAX 'a')
     statReg rfl rfl (by decide)⟩

/-- C5 counterexample: the directory entry named `-1` does not parse as
a non-negative integer, yet `collect_fd_file` appends a File for it
(with association -1) when stat and link-read succeed, because the code
skips an entry only when `strtol` converts nothing and returns 0. -/
theorem lsfd_fd_filter_counterexample :
    Option.map File.assoc (collect_fd_file envPermissive ("-1".data)) = some (-1)
    ∧ specParseNonNegInt ("-1".data) = none := by decide

/-! ## Canonical decimal numerals and strtol -/

lemma digitChar_mem (n : Nat) : digitChar n ∈ digitCharsList := by
  unfold digitChar
  split_ifs <;> decide

lemma digitVal_digitChar {n : Nat} (h : n < 10) : digitVal (digitChar n) = n := by
  unfold digitChar
  split_ifs with h0 h1 h2 h3 h4 h5 h6 h7 h8 <;>
    first
      | (subst_vars; decide)
      | (have h9 : n = 9 := by omega
         subst h9; decide)

lemma digit_facts : ∀ c ∈ digitCharsList,
    c.isDigit = true ∧ isCSpace c = false ∧ c ≠ '-' ∧ c ≠ '+' := by decide

lemma natDigitsAux_mem : ∀ (fuel n : Nat), ∀ c ∈ natDigitsAux fuel n,
    c ∈ digitCharsList := by
  intro fuel
  induction fuel with
  | zero => intro n c hc; simp [natDigitsAux] at hc
  | succ fuel ih =>
    intro n c hc
    unfold natDigitsAux at hc
    by_cases h : n < 10
    · rw [if_pos h] at hc
      simp at hc
      subst hc
      exact digitChar_mem n
    · rw [if_neg h] at hc
      rcases List.mem_append.mp hc with h1 | h2
      · exact ih _ c h1
      · simp at h2
        subst h2
        exact digitChar_mem _

lemma natDigits_mem (n : Nat) : ∀ c ∈ natDigits n, c ∈ digitCharsList :=
  natDigitsAux_mem _ _

lemma natDigits_ne_nil (n : Nat) : natDigits n ≠ [] := by
  unfold natDigits natDigitsAux
  by_cases h : n < 10 <;> simp [h]

lemma natDigitsAux_val : ∀ (fuel n : Nat), n < fuel →
    (natDigitsAux fuel n).foldl (fun a c => a * 10 + digitVal c) 0 = n := by
  intro fuel
  induction fuel with
  | zero => omega
  | succ fuel ih =>
    intro n h
    unfold natDigitsAux
    by_cases h10 : n < 10
    · rw [if_pos h10]
      simp only [List.foldl_cons, List.foldl_nil, Nat.zero_mul, Nat.zero_add]
      exact digitVal_digitChar h10
    · rw [if_neg h10, List.foldl_append]
      rw [ih (n / 10) (by omega)]
      simp only [List.foldl_cons, List.foldl_nil]
      have hd := digitVal_digitChar (show n % 10 < 10 by omega)
      omega

lemma takeWhile_all {p : Char → Bool} :
    ∀ {l : List Char}, (∀ c ∈ l, p c = true) → l.takeWhile p = l := by
  intro l
  induction l with
  | nil => intro _; rfl
  | cons c t ih =>
    intro h
    rw [List.takeWhile_cons, h c (List.mem_cons_self c t), if_pos rfl,
      ih (fun x hx => h x (List.mem_cons_of_mem c hx))]

lemma strtol_digits (l : List Char) (hne : l ≠ [])
    (hmem : ∀ x ∈ l, x ∈ digitCharsList) :
    strtol l =
      (clampLong ((l.foldl (fun a c => a * 10 + digitVal c) 0 : Nat) : Int),
       l.length) := by
  obtain ⟨c, cs, rfl⟩ := List.exists_cons_of_ne_nil hne
  have hc := digit_facts c (hmem c (List.mem_cons_self c cs))
  have hws : (c :: cs).takeWhile isCSpace = [] := by
    rw [List.takeWhile_cons, hc.2.1]
    simp
  have hds : (c :: cs).takeWhile Char.isDigit = c :: cs :=
    takeWhile_all (fun x hx => (digit_facts x (hmem x hx)).1)
  simp [strtol, hws, hds, hc.2.2.1, hc.2.2.2]

lemma clampLong_small {k : Nat} (hk : k < 2 ^ 31) :
    clampLong (k : Int) = (k : Int) := by
  have hk' : (k : Int) < 2147483648 := by
    exact_mod_cast (show k < 2147483648 by omega)
  have hk0 : (0 : Int) ≤ (k : Int) := Int.ofNat_nonneg k
  simp only [clampLong, LONG_MAX, LONG_MIN]
  norm_num
  split_ifs <;> omega

lemma natDigits_val (k : Nat) :
    (natDigits k).foldl (fun a c => a * 10 + digitVal c) 0 = k := by
  unfold natDigits
  exact natDigitsAux_val (k + 1) k (by omega)

lemma strtol_natDigits {k : Nat} (hk : k < 2 ^ 31) :
    strtol (natDigits k) = ((k : Int), (natDigits k).length) := by
  rw [strtol_digits _ (natDigits_ne_nil k) (natDigits_mem k)]
  rw [natDigits_val k]
  rw [clampLong_small hk]

lemma toCInt_small {k : Nat} (hk : k < 2 ^ 31) : toCInt (k : Int) = (k : Int) := by
  have hk' : (k : Int) < 2147483648 := by
    exact_mod_cast (show k < 2147483648 by omega)
  have hk0 : (0 : Int) ≤ (k : Int) := Int.ofNat_nonneg k
  unfold toCInt
  norm_num
  rw [Int.emod_eq_of_lt (by omega) (by omega)]
  omega

lemma natDigits_length_pos (k : Nat) : (natDigits k).length ≠ 0 := by
  have h := natDigits_ne_nil k
  simpa using h

lemma collect_fd_file_canon (env : ProcEnv) (k : Nat) (hk : k < 2 ^ 31)
    (sb : CStat) (t : List Char)
    (hs : env.statAt fdTemplate (natDigits k) = some sb)
    (hr : env.readlinkAt fdTemplate (natDigits k) = some t) :
    collect_fd_file env (natDigits k) =
      some (collect_file sb (t.take (PATH_MAX - 1)) (k : Int)) := by
  have hst := strtol_natDigits hk
  have hlen := natDigits_length_pos k
  simp [collect_fd_file, hst, hs, hr, toCInt_small hk, hlen]

lemma collect_fd_file_canon_assoc (env : ProcEnv) (k : Nat) (hk : k < 2 ^ 31) :
    ∀ f, collect_fd_file env (natDigits k) = some f → f.assoc = (k : Int) := by
  intro f h
  obtain ⟨-, sb, t, -, -, hf⟩ := collect_fd_file_some h
  rw [hf, collect_file_assoc, strtol_natDigits hk, toCInt_small hk]

/-- C5 (amended): a File is appended for a descriptor-table entry iff
`strtol` finds an integer in the entry's name (only a name where the
conversion consumes nothing and yields 0 is skipped on parsing grounds)
and both stat and link-read succeed; the stored association is the
parsed value cast to `int`, which for a canonical non-negative numeral
below 2^31 is exactly the descriptor number. -/
theorem lsfd_fd_filter_amended :
    (∀ (env : ProcEnv) (nm : List Char),
      (strtol nm).1 = 0 ∧ (strtol nm).2 = 0 → collect_fd_file env nm = none)
    ∧ (∀ (env : ProcEnv) (nm : List Char) (f : File),
        collect_fd_file env nm = some f →
        ¬((strtol nm).1 = 0 ∧ (strtol nm).2 = 0)
        ∧ (∃ sb, env.statAt fdTemplate nm = some sb)
        ∧ (∃ t, env.readlinkAt fdTemplate nm = some t)
        ∧ f.assoc = toCInt (strtol nm).1)
    ∧ (∀ (env : ProcEnv) (k : Nat) (sb : CStat) (t : List Char), k < 2 ^ 31 →
        env.statAt fdTemplate (natDigits k) = some sb →
        env.readlinkAt fdTemplate (natDigits k) = some t →
        ∃ f, collect_fd_file env (natDigits k) = some f ∧ f.assoc = (k : Int)) := by
  refine ⟨?_, ?_, ?_⟩
  · intro env nm h
    simp [collect_fd_file, h]
  · intro env nm f h
    obtain ⟨hp, sb, t, hs, hr, hf⟩ := collect_fd_file_some h
    exact ⟨hp, ⟨sb, hs⟩, ⟨t, hr⟩, by rw [hf, collect_file_assoc]⟩
  · intro env k sb t hk hs hr
    exact ⟨_, collect_fd_file_canon env k hk sb t hs hr, by rw [collect_file_assoc]⟩

/-- Witness for C5 (amended): the `.` entry is skipped, and the
canonical entry `7` is collected with association 7. -/
theorem lsfd_fd_filter_amended_witness :
    ((strtol (".".data)).1 = 0 ∧ (strtol (".".data)).2 = 0)
    ∧ collect_fd_file envPermissive (".".data) = none
    ∧ (7 : Nat) < 2 ^ 31
    ∧ envCanonFds.statAt fdTemplate (natDigits 7) = some statReg
    ∧ envCanonFds.readlinkAt fdTemplate (natDigits 7) = some ("/x".data)
    ∧ (∃ f, collect_fd_file envCanonFds (natDigits 7) = some f
        ∧ f.assoc = (7 : Int)) :=
  ⟨by decide,
   lsfd_fd_filter_amended.1 envPermissive (".".data) (by decide),
   by decide, rfl, rfl,
   lsfd_fd_filter_amended.2.2 envCanonFds 7 statReg ("/x".data) (by decide) rfl rfl⟩

/-! ## Association distinctness machinery (C4) -/

lemma filterMap_assoc_sublist {α : Type} (l : List α) (g : α → Option File)
    (v : α → Int)
    (h : ∀ a ∈ l, ∀ f, g a = some f → f.assoc = v a) :
    ((l.filterMap g).map File.assoc).Sublist (l.map v) := by
  induction l with
  | nil => simp
  | cons a t ih =>
    rw [List.filterMap_cons, List.map_cons]
    cases hg : g a with
    | none =>
      exact (ih (fun b hb f hf => h b (List.mem_cons_of_mem a hb) f hf)).cons _
    | some f =>
      rw [List.map_cons, h a (List.mem_cons_self a t) f hg]
      exact (ih (fun b hb f2 hf => h b (List.mem_cons_of_mem a hb) f2 hf)).cons₂ _

lemma outofbox_assocs_sublist (env : ProcEnv) (tmpl : List Char)
    (assocs : List Assoc) :
    ((collect_outofbox_files env tmpl assocs).map File.assoc).Sublist
      (assocs.map (fun a => -(assocVal a : Int))) := by
  unfold collect_outofbox_files
  by_cases hd : env.dirOk tmpl
  · rw [if_pos hd]
    apply filterMap_assoc_sublist
    intro a _ f hf
    obtain ⟨sb, t, -, -, hfe⟩ := collect_outofbox_file_some hf
    rw [hfe, collect_file_assoc]
  · rw [if_neg hd]
    simp

lemma fd_assocs_sublist (env : ProcEnv) (fdNums : List Nat)
    (hk : ∀ k ∈ fdNums, k < 2 ^ 31)
    (hfd : env.fdEntries = some (fdNums.map natDigits)) :
    ((collect_fd_files env).map File.assoc).Sublist
      (fdNums.map (fun k => Int.ofNat k)) := by
  unfold collect_fd_files
  rw [hfd]
  have h1 : (((fdNums.map natDigits).filter xreaddirKeeps).filterMap
      (collect_fd_file env)).Sublist
      ((fdNums.map natDigits).filterMap (collect_fd_file env)) :=
    (List.filter_sublist _).filterMap _
  have h2 : (fdNums.map natDigits).filterMap (collect_fd_file env)
      = fdNums.filterMap (fun k => collect_fd_file env (natDigits k)) := by
    rw [List.filterMap_map]
    rfl
  have h3 : ((fdNums.filterMap
      (fun k => collect_fd_file env (natDigits k))).map File.assoc).Sublist
      (fdNums.map (fun k => Int.ofNat k)) :=
    filterMap_assoc_sublist fdNums _ _
      (fun k hkm f hf => collect_fd_file_canon_assoc env k (hk k hkm) f hf)
  have hmap := h1.map File.assoc
  rw [h2] at hmap
  exact hmap.trans h3

/-- C4: within one enriched Process the association values of its Files
are pairwise distinct: the fixed sentinels are distinct negative codes,
canonical descriptor numbers are distinct non-negatives, and the two
ranges cannot collide (stated for a process whose descriptor directory,
when readable, holds the kernel's canonical distinct numerals). -/
theorem lsfd_associations_pairwise_distinct (env : ProcEnv) (pid : Int)
    (fdNums : List Nat) (cmd : List Char)
    (hc : env.commandName = some cmd)
    (hfd : env.fdEntries = none ∨ env.fdEntries = some (fdNums.map natDigits))
    (hnd : fdNums.Nodup)
    (hsm : ∀ k ∈ fdNums, k < 2 ^ 31) :
    ∀ pr, fill_proc pid env = Except.ok pr → (pr.files.map File.assoc).Nodup := by
  intro pr hpr
  rw [fill_proc_ok hc] at hpr
  have hfiles : pr.files =
      collect_outofbox_files env classicalTemplate classicalAssocs
        ++ collect_outofbox_files env nsTemplate namespaceAssocs
        ++ collect_fd_files env := by
    rw [← Except.ok.inj hpr]
  have sA := outofbox_assocs_sublist env classicalTemplate classicalAssocs
  have sB := outofbox_assocs_sublist env nsTemplate namespaceAssocs
  have sC : ((collect_fd_files env).map File.assoc).Sublist
      (fdNums.map (fun k => Int.ofNat k)) := by
    rcases hfd with hnone | hsome
    · simp [collect_fd_files, hnone]
    · exact fd_assocs_sublist env fdNums hsm hsome
  have hLAneg : ∀ x ∈ classicalAssocs.map (fun a => -(assocVal a : Int)),
      x < 0 := by decide
  have hLBneg : ∀ x ∈ namespaceAssocs.map (fun a => -(assocVal a : Int)),
      x < 0 := by decide
  have hdisjAB : ∀ x ∈ classicalAssocs.map (fun a => -(assocVal a : Int)),
      x ∉ namespaceAssocs.map (fun a => -(assocVal a : Int)) := by decide
  rw [hfiles, List.map_append, List.map_append, List.nodup_append,
    List.nodup_append]
  refine ⟨⟨?_, ?_, ?_⟩, ?_, ?_⟩
  · exact List.Nodup.sublist sA (by decide)
  · exact List.Nodup.sublist sB (by decide)
  · intro x hxa hxb
    exact hdisjAB x (sA.subset hxa) (sB.subset hxb)
  · exact List.Nodup.sublist sC
      (hnd.map (fun a b hab => Int.ofNat.inj hab))
  · intro x hx hxc
    have hneg : x < 0 := by
      rcases List.mem_append.mp hx with h1 | h2
      · exact hLAneg x (sA.subset h1)
      · exact hLBneg x (sB.subset h2)
    obtain ⟨k, -, hke⟩ := List.mem_map.mp (sC.subset hxc)
    simp only [Int.ofNat_eq_coe] at hke
    omega

/-- Witness for C4 with canonical descriptor entries 0 and 7. -/
theorem lsfd_associations_pairwise_distinct_witness :
    envCanonFds.commandName = some ("init".data)
    ∧ (envCanonFds.fdEntries = none
        ∨ envCanonFds.fdEntries = some (([0, 7] : List Nat).map natDigits))
    ∧ ([0, 7] : List Nat).Nodup
    ∧ (∀ k ∈ ([0, 7] : List Nat), k < 2 ^ 31)
    ∧ (∀ pr, fill_proc 5 envCanonFds = Except.ok pr →
        (pr.files.map File.assoc).Nodup) :=
  ⟨rfl, Or.inr rfl, by decide, by decide,
   lsfd_associations_pairwise_distinct envCanonFds 5 [0, 7] ("init".data) rfl
     (Or.inr rfl) (by decide) (by decide)⟩

/-! ## Scheduler claim protocol (C1) -/

lemma claimRun_invariant (n : Nat) :
    ∀ (sched : List Nat) (st : Sched),
      st.claims.map Prod.snd = List.range st.cursor → st.cursor ≤ n →
      ((sched.foldl (claimStep n) st).claims.map Prod.snd =
          List.range (sched.foldl (claimStep n) st).cursor)
      ∧ (sched.foldl (claimStep n) st).cursor =
          min (st.cursor + sched.length) n := by
  intro sched
  induction sched with
  | nil =>
    intro st h hle
    constructor
    · exact h
    · simp
      omega
  | cons w rest ih =>
    intro st h hle
    rw [List.foldl_cons]
    by_cases hc : st.cursor < n
    · have hstep : claimStep n st w = ⟨st.cursor + 1, st.claims ++ [(w, st.cursor)]⟩ := by
        unfold claimStep
        rw [if_pos hc]
      rw [hstep]
      have h2 : ((st.claims ++ [(w, st.cursor)]).map Prod.snd : List Nat) =
          List.range (st.cursor + 1) := by
        rw [List.map_append, h, List.range_succ]
        rfl
      obtain ⟨H1, H2⟩ := ih ⟨st.cursor + 1, st.claims ++ [(w, st.cursor)]⟩ h2 (Nat.succ_le_of_lt hc)
      refine ⟨H1, ?_⟩
      rw [H2]
      simp
      omega
    · have hstep : claimStep n st w = st := by
        unfold claimStep
        rw [if_neg hc]
      rw [hstep]
      obtain ⟨H1, H2⟩ := ih st h hle
      refine ⟨H1, ?_⟩
      rw [H2]
      simp
      omega

lemma map_nodup_inj {α β : Type _} (f : α → β) :
    ∀ (l : List α), (l.map f).Nodup →
      ∀ a ∈ l, ∀ b ∈ l, f a = f b → a = b := by
  intro l
  induction l with
  | nil => intro _ a ha; exact absurd ha (by simp)
  | cons c t ih =>
    intro hnd a ha b hb hf
    rw [List.map_cons, List.nodup_cons] at hnd
    rcases List.mem_cons.mp ha with rfl | hat
    · rcases List.mem_cons.mp hb with rfl | hbt
      · rfl
      · exact absurd (hf ▸ List.mem_map_of_mem f hbt) hnd.1
    · rcases List.mem_cons.mp hb with rfl | hbt
      · exact absurd (hf ▸ List.mem_map_of_mem f hat) hnd.1
      · exact ih hnd.2 a hat b hbt hf

lemma range_filterMap_get {α : Type _} :
    ∀ (l : List α), (List.range l.length).filterMap (fun i => l[i]?) = l := by
  intro l
  induction l with
  | nil => rfl
  | cons a t ih =>
    rw [List.length_cons, List.range_succ_eq_map, List.filterMap_cons]
    simp only [List.getElem?_cons_zero]
    rw [List.filterMap_map]
    have hcomp : ((fun i => (a :: t)[i]?) ∘ Nat.succ) = fun i => t[i]? := by
      funext i
      simp
    rw [hcomp, ih]

/-- C1: in any completed run of the claim protocol over the
pre-populated process list — any interleaving of any worker pool with
at least as many claim sections as processes — the claimed positions
are exactly the list positions in list order, each claimed by exactly
one worker exactly once; the claimed sequence (hence the set of
processes handed to `fill_proc`) is the full list and is independent of
the pool and its schedule. -/
theorem lsfd_scheduler_claims_exact (procs : List Int) (sched sched2 : List Nat)
    (h1 : procs.length ≤ sched.length) (h2 : procs.length ≤ sched2.length) :
    ((runSched procs.length sched).claims.map Prod.snd = List.range procs.length)
    ∧ (∀ w1 w2 i, (w1, i) ∈ (runSched procs.length sched).claims →
        (w2, i) ∈ (runSched procs.length sched).claims → w1 = w2)
    ∧ ((runSched procs.length sched).claims.filterMap (fun c => procs[c.2]?) = procs)
    ∧ ((runSched procs.length sched2).claims.map Prod.snd =
        (runSched procs.length sched).claims.map Prod.snd) := by
  have key : ∀ s : List Nat, procs.length ≤ s.length →
      (runSched procs.length s).claims.map Prod.snd = List.range procs.length := by
    intro s hs
    obtain ⟨H1, H2⟩ := claimRun_invariant procs.length s ⟨0, []⟩ rfl (Nat.zero_le _)
    have hcur : (runSched procs.length s).cursor = procs.length := by
      unfold runSched
      rw [H2]
      omega
    unfold runSched
    rw [H1]
    unfold runSched at hcur
    rw [hcur]
  have hmain := key sched h1
  refine ⟨hmain, ?_, ?_, ?_⟩
  · intro w1 w2 i hw1 hw2
    have hnd : ((runSched procs.length sched).claims.map Prod.snd).Nodup := by
      rw [hmain]
      exact List.nodup_range _
    have heq := map_nodup_inj Prod.snd _ hnd (w1, i) hw1 (w2, i) hw2 rfl
    exact congrArg Prod.fst heq
  · have hstep : (runSched procs.length sched).claims.filterMap (fun c => procs[c.2]?)
        = ((runSched procs.length sched).claims.map Prod.snd).filterMap
            (fun i => procs[i]?) := by
      rw [List.filterMap_map]
      rfl
    rw [hstep, hmain, range_filterMap_get]
  · rw [key sched2 h2, hmain]

/-- Witness for C1: three processes, a two-worker schedule and a
one-worker schedule. -/
theorem lsfd_scheduler_claims_exact_witness :
    ([10, 20, 30] : List Int).length ≤ ([0, 1, 0, 1] : List Nat).length
    ∧ ([10, 20, 30] : List Int).length ≤ ([5, 5, 5] : List Nat).length
    ∧ (((runSched ([10, 20, 30] : List Int).length [0, 1, 0, 1]).claims.map Prod.snd
          = List.range ([10, 20, 30] : List Int).length)
      ∧ (∀ w1 w2 i,
          (w1, i) ∈ (runSched ([10, 20, 30] : List Int).length [0, 1, 0, 1]).claims →
          (w2, i) ∈ (runSched ([10, 20, 30] : List Int).length [0, 1, 0, 1]).claims →
          w1 = w2)
      ∧ ((runSched ([10, 20, 30] : List Int).length [0, 1, 0, 1]).claims.filterMap
          (fun c => ([10, 20, 30] : List Int)[c.2]?) = [10, 20, 30])
      ∧ ((runSched ([10, 20, 30] : List Int).length [5, 5, 5]).claims.map Prod.snd
          = (runSched ([10, 20, 30] : List Int).length [0, 1, 0, 1]).claims.map
              Prod.snd)) :=
  ⟨by decide, by decide,
   lsfd_scheduler_claims_exact [10, 20, 30] [0, 1, 0, 1] [5, 5, 5]
     (by decide) (by decide)⟩

/-! ## Column-name matching (C7) -/

lemma cLower_ne_nul {c : Char} (hc : c ≠ '\x00') : cLower c ≠ '\x00' := by
  unfold cLower
  cases hf : asciiPairs.find? (fun p => p.1 == c) with
  | none => simpa using hc
  | some q =>
    have hq : q ∈ asciiPairs := List.mem_of_find?_eq_some hf
    have : ∀ r ∈ asciiPairs, r.2 ≠ '\x00' := by decide
    simpa using this q hq

lemma cLower_nul : cLower '\x00' = '\x00' := by decide

lemma cmatch_iff : ∀ (nm cn : List Char), '\x00' ∉ nm → '\x00' ∉ cn →
    ((cstrncasecmpIsZero nm cn nm.length && (cAt cn nm.length == '\x00')) = true
      ↔ nm.map cLower = cn.map cLower) := by
  intro nm
  induction nm with
  | nil =>
    intro cn _ hcn
    cases cn with
    | nil => simp [cstrncasecmpIsZero, cAt]
    | cons d u =>
      have hd : d ≠ '\x00' := fun h => hcn (h ▸ List.mem_cons_self d u)
      simp [cstrncasecmpIsZero, cAt, hd]
  | cons c t ih =>
    intro cn hnm hcn
    have hc : c ≠ '\x00' := fun h => hnm (h ▸ List.mem_cons_self c t)
    have hcl := cLower_ne_nul hc
    cases cn with
    | nil =>
      have : ¬(cLower c = '\x00') := hcl
      simp [cstrncasecmpIsZero, cLower_nul, this]
    | cons d u =>
      have hdt : '\x00' ∉ u := fun h => hcn (List.mem_cons_of_mem d h)
      have htt : '\x00' ∉ t := fun h => hnm (List.mem_cons_of_mem c h)
      by_cases hcd : cLower c = cLower d
      · have hstep : cstrncasecmpIsZero (c :: t) (d :: u) (c :: t).length
            = cstrncasecmpIsZero t u t.length := by
          simp only [List.length_cons, cstrncasecmpIsZero, List.headD_cons,
            List.tail_cons]
          rw [if_pos hcd, if_neg hcl]
        have hat : cAt (d :: u) (c :: t).length = cAt u t.length := by
          simp [cAt]
        rw [hstep, hat, ih u htt hdt]
        simp [hcd]
      · have hstep : cstrncasecmpIsZero (c :: t) (d :: u) (c :: t).length
            = false := by
          simp only [List.length_cons, cstrncasecmpIsZero, List.headD_cons]
          rw [if_neg hcd]
        rw [hstep]
        simp [hcd]

lemma columnLookup_neg_iff (nm : List Char) (hnm : '\x00' ∉ nm) :
    ∀ (l : List (List Char)) (i : Nat), (∀ cn ∈ l, '\x00' ∉ cn) →
      (columnLookup nm nm.length l i ≠ -1 ↔
        ∃ cn ∈ l, nm.map cLower = cn.map cLower) := by
  intro l
  induction l with
  | nil => intro i _; simp [columnLookup]
  | cons cn rest ih =>
    intro i hl
    unfold columnLookup
    by_cases hm : nm.map cLower = cn.map cLower
    · have hcond := (cmatch_iff nm cn hnm (hl cn (List.mem_cons_self cn rest))).mpr hm
      rw [if_pos hcond]
      constructor
      · intro _
        exact ⟨cn, List.mem_cons_self cn rest, hm⟩
      · intro _
        omega
    · have hcond : ¬((cstrncasecmpIsZero nm cn nm.length
          && (cAt cn nm.length == '\x00')) = true) :=
        fun hcc => hm ((cmatch_iff nm cn hnm (hl cn (List.mem_cons_self cn rest))).mp hcc)
      rw [if_neg hcond]
      rw [ih (i + 1) (fun x hx => hl x (List.mem_cons_of_mem cn hx))]
      simp [hm]

lemma string_add_to_idarray_none (nm : List Char)
    (hbad : column_name_to_id nm nm.length = -1) :
    ∀ (names : List (List Char)), nm ∈ names →
      ∀ cols, string_add_to_idarray names cols = none := by
  intro names
  induction names with
  | nil => intro hmem; exact absurd hmem (by simp)
  | cons a rest ih =>
    intro hmem cols
    unfold string_add_to_idarray
    by_cases hneg : column_name_to_id a a.length < 0
    · simp only [hneg, if_pos]
    · rw [if_neg hneg]
      rcases List.mem_cons.mp hmem with rfl | hr
      · rw [hbad] at hneg
        omega
      · exact ih hr _

/-- C7 counterexample: the spec's column names ASSOCIATION,
FILE-DESCRIPTOR, PROCESS-ID and USER-ID are rejected by
`column_name_to_id`, while ASSOC — outside the spec's list — is
recognized (as column id 0). -/
theorem lsfd_column_names_counterexample :
    column_name_to_id ("ASSOCIATION".data) ("ASSOCIATION".data).length = -1
    ∧ column_name_to_id ("FILE-DESCRIPTOR".data) ("FILE-DESCRIPTOR".data).length = -1
    ∧ column_name_to_id ("PROCESS-ID".data) ("PROCESS-ID".data).length = -1
    ∧ column_name_to_id ("USER-ID".data) ("USER-ID".data).length = -1
    ∧ column_name_to_id ("ASSOC".data) ("ASSOC".data).length = 0 := by decide

/-- C7 (amended): the recognized column names are exactly ASSOC,
COMMAND, DEVICE, FD, INODE, NAME, PID, TYPE, UID, USER; a name is
recognized iff it matches one of them case-insensitively in full; and
any unrecognized `-o` name makes the run fail with `EXIT_FAILURE`
before any collection work, emitting no table. -/
theorem lsfd_column_matching_amended :
    (infos.map (fun cn => column_name_to_id cn cn.length)
      = [0, 1, 2, 3, 4, 5, 6, 7, 8, 9])
    ∧ (∀ nm : List Char, '\x00' ∉ nm →
        (column_name_to_id nm nm.length ≠ -1 ↔
          ∃ cn ∈ infos, nm.map cLower = cn.map cLower))
    ∧ (∀ (names : List (List Char)) (nm : List Char) (w : World),
        nm ∈ names → column_name_to_id nm nm.length = -1 →
        lsfd_run (some names) w = Except.error EXIT_FAILURE) := by
  refine ⟨by decide, ?_, ?_⟩
  · intro nm hnm
    exact columnLookup_neg_iff nm hnm infos 0 (by decide)
  · intro names nm w hmem hbad
    have hst := string_add_to_idarray_none nm hbad names hmem defaultColumns
    simp [lsfd_run, setupColumns, hst]

/-- Witness for C7 (amended): lower-case `pid` is recognized, and a run
with `-o BOGUS` fails before collection. -/
theorem lsfd_column_matching_amended_witness :
    '\x00' ∉ "pid".data
    ∧ (column_name_to_id ("pid".data) ("pid".data).length ≠ -1 ↔
        ∃ cn ∈ infos, "pid".data.map cLower = cn.map cLower)
    ∧ "BOGUS".data ∈ [["BOGUS".data]].head!
    ∧ column_name_to_id ("BOGUS".data) ("BOGUS".data).length = -1
    ∧ lsfd_run (some ["BOGUS".data]) witWorld = Except.error EXIT_FAILURE :=
  ⟨by decide,
   lsfd_column_matching_amended.2.1 ("pid".data) (by decide),
   by decide, by decide,
   lsfd_column_matching_amended.2.2 ["BOGUS".data] ("BOGUS".data) witWorld
     (by decide) (by decide)⟩

end Lsfd


